import Mathlib

/-!
Shallow embedding of `src/passes/LoggerPass.cpp` (an LLVM function pass that
instruments eligible functions with printf-based entry/argument/return logging)
together with proofs about the pass.

Modelling conventions:
* LLVM types are modelled by `LType`; only the distinctions the pass reads
  (`isPointerTy`, `isIntegerTy`, `isFloatingPointTy`, `isDoubleTy`,
  `getScalarSizeInBits`) are represented.
* A basic block is its list of non-terminator instructions plus its single
  terminator.  Original instructions of the input function are opaque
  (`Instr.orig`); the pass only ever creates `call` and `cast` instructions.
* The entry block of a valid LLVM function has no PHI nodes (it has no
  predecessors) and no EH pad, so `BasicBlock::getFirstInsertionPt()` on the
  entry block is always the block's first instruction — including after the
  pass has inserted ordinary call/cast instructions at the front.  Insertion
  at the first insertion point is therefore modelled as prepending to `insts`.
* The module records the functions it owns, the function declarations the
  pass inserts via `getOrInsertFunction` (kept in a separate list
  `extraFnDecls`; such declarations are themselves skipped by the pass, so
  keeping them out of `funcs` does not change any behaviour), and every
  global string constant created by `CreateGlobalStringPtr` (which creates a
  fresh global on every call and returns a constant pointer, inserting no
  instruction).
* `IRBuilder` folding is reproduced where it applies: `CreateZExtOrBitCast`
  to `i64` of a value that is already 64 bits wide folds to the operand
  itself, `CreatePointerCast` of an (opaque, address-space 0) pointer to
  `ptr` folds to the operand itself, and `CreateFPExt` is only invoked on
  non-double floating values, producing a real instruction.
-/

namespace LoggerPass

/-- LLVM types, restricted to the distinctions `LoggerPass.cpp` inspects.
`fp bits` covers all floating-point types (`fp 64` is `double`); `agg`
stands for every other first-class type (aggregates, vectors, ...). -/
inductive LType where
  | ptr : LType
  | int (w : Nat) : LType
  | fp (bits : Nat) : LType
  | voidTy : LType
  | agg (id : Nat) : LType
deriving DecidableEq, Repr

/-- `Type::isPointerTy()`. -/
def LType.isPointerTy : LType → Bool
  | .ptr => true
  | _ => false

/-- `Type::isIntegerTy()`. -/
def LType.isIntegerTy : LType → Bool
  | .int _ => true
  | _ => false

/-- `Type::isFloatingPointTy()`. -/
def LType.isFloatingPointTy : LType → Bool
  | .fp _ => true
  | _ => false

/-- `Type::isDoubleTy()`. -/
def LType.isDoubleTy : LType → Bool
  | .fp 64 => true
  | _ => false

/-- `Type::getScalarSizeInBits()`: the bit width for integer and
floating-point types, and 0 for pointers, void and aggregates. -/
def LType.scalarSizeInBits : LType → Nat
  | .int w => w
  | .fp bits => bits
  | _ => 0

/-- Cast opcodes the embedding distinguishes.  The pass itself only ever
materialises `zext` and `fpext` instructions; `sext` is included so that the
sign-extension alternative can be stated and refuted, `bitcast` and
`ptrcast` so the folded identity casts have names. -/
inductive CastKind where
  | zext : CastKind
  | sext : CastKind
  | fpext : CastKind
  | bitcast : CastKind
  | ptrcast : CastKind
deriving DecidableEq, Repr

/-- SSA operands appearing in instructions the pass creates.
`arg i` is the function's i-th parameter, `origVal id` an opaque original
value (e.g. a return operand), `gstr gid s` the constant pointer returned by
`CreateGlobalStringPtr` to global number `gid` whose contents are `s`,
`constI32 v` the immediate produced by `IRBuilder::getInt32`, and
`castV k w src` the result of a cast instruction of kind `k` from a source
of scalar width `w`. -/
inductive Operand where
  | arg (i : Nat) : Operand
  | origVal (id : Nat) : Operand
  | gstr (gid : Nat) (s : String) : Operand
  | constI32 (v : Nat) : Operand
  | castV (k : CastKind) (w : Nat) (src : Operand) : Operand
deriving DecidableEq, Repr

/-- Non-terminator instructions.  Original instructions of the input
function are opaque; the pass only creates `cast` and `callPrintf`
instructions (both non-branching). -/
inductive Instr where
  | orig (id : Nat) : Instr
  | cast (k : CastKind) (src : Operand) (dstTy : LType) : Instr
  | callPrintf (ops : List Operand) : Instr
deriving DecidableEq, Repr

/-- Block terminators.  `ret rv` is a `ReturnInst`; `rv` is `none` when the
return has no operand (void return) and otherwise carries the returned
value's type and an opaque value id.  `other id succs` covers every
non-return terminator (br, switch, unreachable, ...) with its successor
block indices. -/
inductive Term where
  | ret (rv : Option (LType × Nat)) : Term
  | other (id : Nat) (succs : List Nat) : Term
deriving DecidableEq, Repr

/-- A basic block: ordered non-terminator instructions plus one terminator. -/
structure BB where
  insts : List Instr
  term : Term
deriving DecidableEq, Repr

/-- A function: name (possibly empty), intrinsic flag, calling convention,
return type, ordered parameter types, and body blocks (entry first).  A
declaration has no body, i.e. `blocks = []`. -/
structure Func where
  name : String
  intrinsic : Bool
  cconv : Nat
  retTy : LType
  params : List LType
  blocks : List BB
deriving DecidableEq, Repr

/-- `Function::isDeclaration()`: a function with no body. -/
def Func.isDeclaration (F : Func) : Bool := F.blocks.isEmpty

/-- A global string constant created by `CreateGlobalStringPtr`:
the symbol name requested for the global and its string contents. -/
structure GlobalStr where
  symName : String
  content : String
deriving DecidableEq, Repr

/-- A module: the functions it owns, the function declarations inserted by
`Module::getOrInsertFunction`, and the global string constants created by
`CreateGlobalStringPtr`, in creation order. -/
structure Mod where
  funcs : List Func
  extraFnDecls : List String
  globals : List GlobalStr
deriving DecidableEq, Repr

/-- The two `PreservedAnalyses` values the pass constructs:
`allKept` is `PreservedAnalyses::all()` and `noneKept` is
`PreservedAnalyses::none()` (the empty preserved set). -/
inductive PreservedAnalyses where
  | allKept : PreservedAnalyses
  | noneKept : PreservedAnalyses
deriving DecidableEq, Repr

/-- `PreservedAnalyses::allAnalysesInSetPreserved<CFGAnalyses>()`: whether
the result marks the CFG-analyses set as preserved.  `none()` preserves
nothing, so it does not mark the CFG set; `all()` preserves everything. -/
def PreservedAnalyses.preservesCFG : PreservedAnalyses → Bool
  | .allKept => true
  | .noneKept => false

/-! ## Format strings used by the emission helpers -/

def enterFmt : String := ">> %s\n"
def argFmtPtr : String := "   %s(arg%d)=%p\n"
def argFmtInt : String := "   %s(arg%d)=%lld\n"
def argFmtFlt : String := "   %s(arg%d)=%f\n"
def argFmtAgg : String := "   %s(arg%d)=(aggregate)\n"
def retFmtVoid : String := "<< %s returns void\n"
def retFmtInt : String := "<< %s returns %lld\n"
def retFmtFlt : String := "<< %s returns %f\n"
def retFmtPtr : String := "<< %s returns %p\n"
def retFmtAgg : String := "<< %s returns (aggregate)\n"

/-! ## The pass, translated function by function from `LoggerPass.cpp` -/

/-- `isSkippableFunction` (LoggerPass.cpp:18-26), with the same
short-circuit order: declaration, intrinsic, empty name (not skipped),
name equal to `"printf"`, name starting with `"__logger"`. -/
def isSkippableFunction (F : Func) : Bool :=
  if F.isDeclaration then true
  else if F.intrinsic then true
  else if F.name.isEmpty then false
  else if F.name == "printf" then true
  else if F.name.startsWith "__logger" then true
  else false

/-- Whether a function named `n` exists in the module (among its own
functions or the declarations previously inserted by the pass). -/
def modHasFn (M : Mod) (n : String) : Bool :=
  M.funcs.any (fun f => f.name == n) || M.extraFnDecls.contains n

/-- `getOrInsertPrintf` (LoggerPass.cpp:28-33): look up `"printf"` by name
and insert a declaration only when absent. -/
def getOrInsertPrintf (M : Mod) : Mod :=
  if modHasFn M "printf" then M
  else { M with extraFnDecls := M.extraFnDecls ++ ["printf"] }

/-- `IRBuilder::CreateGlobalStringPtr(content, symName)`: creates a fresh
global string constant on every call (no deduplication) and returns a
constant pointer to it; no instruction is inserted.  The returned `Nat` is
the index of the new global. -/
def createGlobalStringPtr (M : Mod) (content symName : String) : Mod × Nat :=
  ({ M with globals := M.globals ++ [⟨symName, content⟩] }, M.globals.length)

/-- `IRBuilder::CreateZExtOrBitCast(v, i64)`: when the source scalar width
is already 64 the chosen opcode is a bitcast between identical types, which
`IRBuilder` folds to the operand itself; otherwise a `zext` instruction is
created. -/
def createZExtOrBitCast (v : Operand) (t : LType) : List Instr × Operand :=
  if t.scalarSizeInBits == 64 then ([], v)
  else ([.cast .zext v (.int 64)], .castV .zext t.scalarSizeInBits v)

/-- The float-widening step of `emitPrintfArgFloat`/`emitPrintfRetFloat`:
`V->getType()->isDoubleTy() ? V : B.CreateFPExt(V, double)`. -/
def createFPExtToDouble (v : Operand) (t : LType) : List Instr × Operand :=
  if t.isDoubleTy then ([], v)
  else ([.cast .fpext v (.fp 64)], .castV .fpext t.scalarSizeInBits v)

/-- `IRBuilder::CreatePointerCast(v, ptr)` on an (opaque, address-space 0)
pointer: source and destination types coincide, so the builder folds the
cast and returns the operand itself. -/
def createPointerCastToI8 (v : Operand) : List Instr × Operand := ([], v)

/-- `emitPrintfEnter` (LoggerPass.cpp:39-43). -/
def emitPrintfEnter (M : Mod) (fnNameStr : Operand) : Mod × List Instr :=
  let M1 := getOrInsertPrintf M
  let r := createGlobalStringPtr M1 enterFmt "__logger.fmt.enter"
  (r.1, [.callPrintf [.gstr r.2 enterFmt, fnNameStr]])

/-- `emitPrintfAggregate` (LoggerPass.cpp:45-50). -/
def emitPrintfAggregate (M : Mod) (fnNameStr : Operand) (argIndex : Nat) :
    Mod × List Instr :=
  let M1 := getOrInsertPrintf M
  let r := createGlobalStringPtr M1 argFmtAgg "__logger.fmt.arg.agg"
  (r.1, [.callPrintf [.gstr r.2 argFmtAgg, fnNameStr, .constI32 argIndex]])

/-- `emitPrintfArgInt` (LoggerPass.cpp:52-59).  `t` is the type of `v`. -/
def emitPrintfArgInt (M : Mod) (fnNameStr : Operand) (argIndex : Nat)
    (v : Operand) (t : LType) : Mod × List Instr :=
  let M1 := getOrInsertPrintf M
  let r := createGlobalStringPtr M1 argFmtInt "__logger.fmt.arg.i"
  let c := createZExtOrBitCast v t
  (r.1, c.1 ++ [.callPrintf [.gstr r.2 argFmtInt, fnNameStr, .constI32 argIndex, c.2]])

/-- `emitPrintfArgFloat` (LoggerPass.cpp:61-68).  `t` is the type of `v`. -/
def emitPrintfArgFloat (M : Mod) (fnNameStr : Operand) (argIndex : Nat)
    (v : Operand) (t : LType) : Mod × List Instr :=
  let M1 := getOrInsertPrintf M
  let r := createGlobalStringPtr M1 argFmtFlt "__logger.fmt.arg.f"
  let c := createFPExtToDouble v t
  (r.1, c.1 ++ [.callPrintf [.gstr r.2 argFmtFlt, fnNameStr, .constI32 argIndex, c.2]])

/-- `emitPrintfArgPtr` (LoggerPass.cpp:70-76). -/
def emitPrintfArgPtr (M : Mod) (fnNameStr : Operand) (argIndex : Nat)
    (v : Operand) : Mod × List Instr :=
  let M1 := getOrInsertPrintf M
  let r := createGlobalStringPtr M1 argFmtPtr "__logger.fmt.arg.p"
  let c := createPointerCastToI8 v
  (r.1, c.1 ++ [.callPrintf [.gstr r.2 argFmtPtr, fnNameStr, .constI32 argIndex, c.2]])

/-- `emitPrintfRetVoid` (LoggerPass.cpp:78-82). -/
def emitPrintfRetVoid (M : Mod) (fnNameStr : Operand) : Mod × List Instr :=
  let M1 := getOrInsertPrintf M
  let r := createGlobalStringPtr M1 retFmtVoid "__logger.fmt.ret.v"
  (r.1, [.callPrintf [.gstr r.2 retFmtVoid, fnNameStr]])

/-- `emitPrintfRetInt` (LoggerPass.cpp:84-89).  `t` is the type of `v`. -/
def emitPrintfRetInt (M : Mod) (fnNameStr : Operand) (v : Operand) (t : LType) :
    Mod × List Instr :=
  let M1 := getOrInsertPrintf M
  let r := createGlobalStringPtr M1 retFmtInt "__logger.fmt.ret.i"
  let c := createZExtOrBitCast v t
  (r.1, c.1 ++ [.callPrintf [.gstr r.2 retFmtInt, fnNameStr, c.2]])

/-- `emitPrintfRetFloat` (LoggerPass.cpp:91-96).  `t` is the type of `v`. -/
def emitPrintfRetFloat (M : Mod) (fnNameStr : Operand) (v : Operand) (t : LType) :
    Mod × List Instr :=
  let M1 := getOrInsertPrintf M
  let r := createGlobalStringPtr M1 retFmtFlt "__logger.fmt.ret.f"
  let c := createFPExtToDouble v t
  (r.1, c.1 ++ [.callPrintf [.gstr r.2 retFmtFlt, fnNameStr, c.2]])

/-- `emitPrintfRetPtr` (LoggerPass.cpp:98-103). -/
def emitPrintfRetPtr (M : Mod) (fnNameStr : Operand) (v : Operand) :
    Mod × List Instr :=
  let M1 := getOrInsertPrintf M
  let r := createGlobalStringPtr M1 retFmtPtr "__logger.fmt.ret.p"
  let c := createPointerCastToI8 v
  (r.1, c.1 ++ [.callPrintf [.gstr r.2 retFmtPtr, fnNameStr, c.2]])

/-- The body of the argument loop (LoggerPass.cpp:119-130): dispatch on the
parameter's type.  The `Value*` passed for parameter `i` is `Operand.arg i`. -/
def emitArgLog (M : Mod) (fnNameStr : Operand) (i : Nat) (t : LType) :
    Mod × List Instr :=
  if t.isPointerTy then emitPrintfArgPtr M fnNameStr i (.arg i)
  else if t.isIntegerTy then emitPrintfArgInt M fnNameStr i (.arg i) t
  else if t.isFloatingPointTy then emitPrintfArgFloat M fnNameStr i (.arg i) t
  else emitPrintfAggregate M fnNameStr i

/-- The argument loop (LoggerPass.cpp:118-132).  Each iteration constructs a
fresh `IRBuilder` at `Entry.getFirstInsertionPt()`; the entry block has no
PHI nodes or EH pad and everything inserted so far is an ordinary call or
cast, so that insertion point is the current first instruction and the new
instructions are prepended. -/
def instrumentArgs (M : Mod) (fnNameStr : Operand) (params : List LType)
    (i : Nat) (bb : BB) : Mod × BB :=
  match params with
  | [] => (M, bb)
  | t :: rest =>
    let r := emitArgLog M fnNameStr i t
    instrumentArgs r.1 fnNameStr rest (i + 1) { bb with insts := r.2 ++ bb.insts }

/-- The body of the return loop (LoggerPass.cpp:141-160): void when the
return instruction has no operand, otherwise dispatch on the returned
value's type; the aggregate arm is inlined in `run` in the C++ source. -/
def emitRetLog (M : Mod) (fnNameStr : Operand) (rv : Option (LType × Nat)) :
    Mod × List Instr :=
  match rv with
  | none => emitPrintfRetVoid M fnNameStr
  | some (t, vid) =>
    if t.isPointerTy then emitPrintfRetPtr M fnNameStr (.origVal vid)
    else if t.isIntegerTy then emitPrintfRetInt M fnNameStr (.origVal vid) t
    else if t.isFloatingPointTy then emitPrintfRetFloat M fnNameStr (.origVal vid) t
    else
      let M1 := getOrInsertPrintf M
      let r := createGlobalStringPtr M1 retFmtAgg "__logger.fmt.ret.agg"
      (r.1, [.callPrintf [.gstr r.2 retFmtAgg, fnNameStr]])

/-- The return loop (LoggerPass.cpp:134-160): every block whose terminator
is a `ReturnInst` receives its log instructions immediately before the
terminator, i.e. appended at the end of `insts`. -/
def instrumentRets (M : Mod) (fnNameStr : Operand) : List BB → Mod × List BB
  | [] => (M, [])
  | bb :: rest =>
    match bb.term with
    | .ret rv =>
      let r := emitRetLog M fnNameStr rv
      let r2 := instrumentRets r.1 fnNameStr rest
      (r2.1, { bb with insts := bb.insts ++ r.2 } :: r2.2)
    | .other _ _ =>
      let r2 := instrumentRets M fnNameStr rest
      (r2.1, bb :: r2.2)

/-- The body of `LoggerFunctionPass::run` once the filter has passed
(LoggerPass.cpp:112-160): materialise the function-name constant, emit the
entry log at the entry block's first insertion point, run the argument
loop, then the return loop.  Returns the updated module and the rewritten
block list. -/
def instrumentBody (M : Mod) (F : Func) (entry : BB) (rest : List BB) :
    Mod × List BB :=
  let r1 := createGlobalStringPtr M F.name ("__logger.fn." ++ F.name)
  let fnNameStr : Operand := .gstr r1.2 F.name
  let r2 := emitPrintfEnter r1.1 fnNameStr
  let entry1 : BB := { entry with insts := r2.2 ++ entry.insts }
  let r3 := instrumentArgs r2.1 fnNameStr F.params 0 entry1
  instrumentRets r3.1 fnNameStr (r3.2 :: rest)

/-- `LoggerFunctionPass::run` (LoggerPass.cpp:107-163).  Returns the updated
module, the updated function, and the `PreservedAnalyses` result.  The
`[]` arm of the match is unreachable: a function without blocks is a
declaration and was already skipped. -/
def runFunction (M : Mod) (F : Func) : Mod × Func × PreservedAnalyses :=
  if isSkippableFunction F then (M, F, .allKept)
  else
    match F.blocks with
    | [] => (M, F, .allKept)
    | entry :: rest =>
      let r := instrumentBody M F entry rest
      (r.1, { F with blocks := r.2 }, .noneKept)

/-- One step of the module-to-function adaptor: run the pass on the i-th
function of the module and store the rewritten function back. -/
def runAt (M : Mod) (i : Nat) : Mod :=
  match M.funcs[i]? with
  | none => M
  | some F =>
    let r := runFunction M F
    { r.1 with funcs := r.1.funcs.set i r.2.1 }

/-- Run the pass on the first `n` functions of the module, in order. -/
def runUpTo (M : Mod) : Nat → Mod
  | 0 => M
  | n + 1 => runAt (runUpTo M n) n

/-- One whole-module run of the pass (the module-to-function adaptor). -/
def runModule (M : Mod) : Mod := runUpTo M M.funcs.length

/-- `n` successive whole-module runs of the pass. -/
def runTimes (M : Mod) : Nat → Mod
  | 0 => M
  | n + 1 => runModule (runTimes M n)

/-! ## Observers used to state the claims -/

/-- The format string of a printf call: the contents of its first operand. -/
def Instr.fmtStr : Instr → Option String
  | .callPrintf (.gstr _ s :: _) => some s
  | _ => none

/-- An entry-log call: printf of `">> %s\n"`. -/
def isEnterLogCall (x : Instr) : Bool := x.fmtStr == some enterFmt

/-- An argument-log call: printf of one of the four argument formats. -/
def isArgLogCall (x : Instr) : Bool :=
  match x.fmtStr with
  | some s => s == argFmtPtr || s == argFmtInt || s == argFmtFlt || s == argFmtAgg
  | none => false

/-- A return-log call: printf of one of the five return formats. -/
def isRetLogCall (x : Instr) : Bool :=
  match x.fmtStr with
  | some s => s == retFmtVoid || s == retFmtInt || s == retFmtFlt ||
      s == retFmtPtr || s == retFmtAgg
  | none => false

/-- The zero-based argument index carried by an argument-log call. -/
def argLogIdx : Instr → Option Nat
  | .callPrintf (_ :: _ :: .constI32 i :: _) => some i
  | _ => none

/-- Any printf call created by the pass. -/
def Instr.isPrintfCall : Instr → Bool
  | .callPrintf _ => true
  | _ => false

/-- Instructions the synthesizer can create: calls and casts (never a
terminator, never an original instruction). -/
def Instr.isCallOrCast : Instr → Bool
  | .orig _ => false
  | .cast _ _ _ => true
  | .callPrintf _ => true

/-- The return format string selected for a given return site, following
the dispatch of LoggerPass.cpp:141-160. -/
def retFmtFor : Option (LType × Nat) → String
  | none => retFmtVoid
  | some (t, _) =>
    if t.isPointerTy then retFmtPtr
    else if t.isIntegerTy then retFmtInt
    else if t.isFloatingPointTy then retFmtFlt
    else retFmtAgg

/-- How many `"printf"` declarations the pass has inserted into the module. -/
def printfDeclCount (M : Mod) : Nat := M.extraFnDecls.count "printf"

/-- The classification outcome for an argument, mirroring the branch
structure of the argument loop; the final `else` is the catch-all. -/
inductive ArgKind where
  | ptrArg | intArg | fltArg | aggArg
deriving DecidableEq, Repr

/-- The classification outcome for a return site. -/
inductive RetKind where
  | voidRet | ptrRet | intRet | fltRet | aggRet
deriving DecidableEq, Repr

/-- Argument classification as a partial map: each branch of the dispatch
chain of LoggerPass.cpp:122-130 yields a defined emission action, the
trailing `else` being the aggregate catch-all. -/
def argEmitKind (t : LType) : Option ArgKind :=
  if t.isPointerTy then some .ptrArg
  else if t.isIntegerTy then some .intArg
  else if t.isFloatingPointTy then some .fltArg
  else some .aggArg

/-- Return-site classification as a partial map, following
LoggerPass.cpp:143-159. -/
def retEmitKind : Option (LType × Nat) → Option RetKind
  | none => some .voidRet
  | some (t, _) =>
    if t.isPointerTy then some .ptrRet
    else if t.isIntegerTy then some .intRet
    else if t.isFloatingPointTy then some .fltRet
    else some .aggRet

/-- Evaluation of an operand as the 64-bit bit pattern handed to printf.
`aenv` gives the bit pattern held by each function parameter, `venv` the
pattern of each opaque original value.  `zext` of a value below `2^w`
produces the same pattern widened with zeroes; `sext` replicates the sign
bit, i.e. adds `2^64 - 2^w` to patterns with the top source bit set. -/
def evalOperand (aenv venv : Nat → Nat) : Operand → Nat
  | .arg i => aenv i
  | .origVal id => venv id
  | .gstr _ _ => 0
  | .constI32 v => v % 2 ^ 32
  | .castV k w src =>
    let s := evalOperand aenv venv src
    match k with
    | .zext => s % 2 ^ 64
    | .sext => if s % 2 ^ w < 2 ^ (w - 1) then s % 2 ^ w
               else (s % 2 ^ w + (2 ^ 64 - 2 ^ w)) % 2 ^ 64
    | .fpext => s
    | .bitcast => s
    | .ptrcast => s

/-! ## Concrete functions and modules used as witnesses -/

/-- `int add(int a, int b) { return a + b; }` after translation to IR: two
i32 parameters, one entry block holding one original instruction (the add)
and returning original value 0 (the add's result). -/
def demoAdd : Func :=
  { name := "add", intrinsic := false, cconv := 0, retTy := .int 32,
    params := [.int 32, .int 32],
    blocks := [{ insts := [.orig 0], term := .ret (some (.int 32, 0)) }] }

/-- A defined function with no parameters returning void. -/
def demoVoidFn : Func :=
  { name := "f", intrinsic := false, cconv := 0, retTy := .voidTy,
    params := [], blocks := [{ insts := [], term := .ret none }] }

/-- A declaration-only function (no body). -/
def demoDecl : Func :=
  { name := "ext", intrinsic := false, cconv := 0, retTy := .voidTy,
    params := [], blocks := [] }

/-- A module owning just `demoAdd`, with no pass-created artifacts yet. -/
def demoMod : Mod := { funcs := [demoAdd], extraFnDecls := [], globals := [] }

/-- A module owning a void function and a declaration. -/
def demoMod2 : Mod :=
  { funcs := [demoVoidFn, demoDecl], extraFnDecls := [], globals := [] }

/-- The entry-block instruction list of `demoAdd` after one run of the pass. -/
def demoAddEntry : List Instr :=
  ((runFunction demoMod demoAdd).2.1.blocks.headD ⟨[], .ret none⟩).insts

/-- A defined, non-intrinsic function with an empty name (the edge case the
filter must not skip). -/
def demoAnon : Func :=
  { name := "", intrinsic := false, cconv := 0, retTy := .voidTy,
    params := [], blocks := [{ insts := [], term := .ret none }] }

/-! ## Relations used by the proofs -/

/-- Pointwise relation between an input block and its instrumented version:
terminator unchanged, original instructions contiguous and in place, only
call/cast instructions added, none of the prepended ones a return log,
exactly one appended return log iff the terminator is a return, and that
return log is the block's last instruction with the classified format. -/
def blockInstrumented (b b' : BB) : Prop :=
  b'.term = b.term ∧
  ∃ pre post, b'.insts = pre ++ b.insts ++ post ∧
    (∀ x ∈ pre, x.isCallOrCast = true) ∧
    (∀ x ∈ post, x.isCallOrCast = true) ∧
    pre.countP isRetLogCall = 0 ∧
    post.countP isRetLogCall =
      (match b.term with | .ret _ => 1 | .other _ _ => 0) ∧
    (∀ rv, b.term = .ret rv →
      post.getLast?.bind Instr.fmtStr = some (retFmtFor rv))

/-- The data of a function the eligibility filter can observe across runs:
its name and its skippability. -/
def funcKey (f : Func) : String × Bool := (f.name, isSkippableFunction f)

/-- How one pass invocation may extend a module: functions untouched,
globals and inserted declarations only appended, nothing inserted when
`printf` is already present, and at most one `printf` declaration ever. -/
def ModExt (M M' : Mod) : Prop :=
  M'.funcs = M.funcs ∧
  (∃ l, M'.globals = M.globals ++ l) ∧
  (∃ l, M'.extraFnDecls = M.extraFnDecls ++ l) ∧
  (modHasFn M "printf" = true → M'.extraFnDecls = M.extraFnDecls) ∧
  printfDeclCount M' ≤ max (printfDeclCount M) 1

/-- How whole-module processing may change a module: every function keeps
its name and skippability, globals and inserted declarations only grow,
nothing is inserted once `printf` is present, and at most one `printf`
declaration ever exists among the inserted ones. -/
def ModExtM (M M' : Mod) : Prop :=
  M'.funcs.map funcKey = M.funcs.map funcKey ∧
  (∃ l, M'.globals = M.globals ++ l) ∧
  (∃ l, M'.extraFnDecls = M.extraFnDecls ++ l) ∧
  (modHasFn M "printf" = true → M'.extraFnDecls = M.extraFnDecls) ∧
  printfDeclCount M' ≤ max (printfDeclCount M) 1

/-! ## Basic lemmas about the module-level helpers -/

theorem getOrInsertPrintf_globals (M : Mod) :
    (getOrInsertPrintf M).globals = M.globals := by
  unfold getOrInsertPrintf; split <;> rfl

theorem getOrInsertPrintf_funcs (M : Mod) :
    (getOrInsertPrintf M).funcs = M.funcs := by
  unfold getOrInsertPrintf; split <;> rfl

theorem getOrInsertPrintf_hasPrintf (M : Mod) :
    modHasFn (getOrInsertPrintf M) "printf" = true := by
  unfold getOrInsertPrintf
  split
  · assumption
  · unfold modHasFn at *
    simp_all [List.contains_eq_any_beq, List.any_append]

theorem getOrInsertPrintf_idem (M : Mod) :
    getOrInsertPrintf (getOrInsertPrintf M) = getOrInsertPrintf M := by
  conv_lhs => rw [getOrInsertPrintf]
  rw [if_pos (getOrInsertPrintf_hasPrintf M)]

/-! ## Reduction lemmas for the log-call observers -/

@[simp] theorem fmtStr_gstr (g : Nat) (s : String) (rest : List Operand) :
    (Instr.callPrintf (.gstr g s :: rest)).fmtStr = some s := rfl

@[simp] theorem isEnterLogCall_mk (g : Nat) (s : String) (rest : List Operand) :
    isEnterLogCall (.callPrintf (.gstr g s :: rest)) = (s == enterFmt) := by
  simp [isEnterLogCall]

@[simp] theorem isArgLogCall_mk (g : Nat) (s : String) (rest : List Operand) :
    isArgLogCall (.callPrintf (.gstr g s :: rest)) =
      (s == argFmtPtr || s == argFmtInt || s == argFmtFlt || s == argFmtAgg) := rfl

@[simp] theorem isRetLogCall_mk (g : Nat) (s : String) (rest : List Operand) :
    isRetLogCall (.callPrintf (.gstr g s :: rest)) =
      (s == retFmtVoid || s == retFmtInt || s == retFmtFlt ||
       s == retFmtPtr || s == retFmtAgg) := rfl

@[simp] theorem isRetLogCall_cast (k : CastKind) (src : Operand) (t : LType) :
    isRetLogCall (.cast k src t) = false := rfl

@[simp] theorem isRetLogCall_orig (id : Nat) :
    isRetLogCall (.orig id) = false := rfl

@[simp] theorem isCallOrCast_cast (k : CastKind) (src : Operand) (t : LType) :
    (Instr.cast k src t).isCallOrCast = true := rfl

@[simp] theorem isCallOrCast_call (ops : List Operand) :
    (Instr.callPrintf ops).isCallOrCast = true := rfl

@[simp] theorem isPrintfCall_cast (k : CastKind) (src : Operand) (t : LType) :
    (Instr.cast k src t).isPrintfCall = false := rfl

@[simp] theorem isPrintfCall_call (ops : List Operand) :
    (Instr.callPrintf ops).isPrintfCall = true := rfl

/-! ## Shape facts about the emission helpers -/

theorem emitPrintfEnter_snd (M : Mod) (p : Operand) :
    (emitPrintfEnter M p).2 =
      [.callPrintf [.gstr M.globals.length enterFmt, p]] := by
  simp [emitPrintfEnter, createGlobalStringPtr, getOrInsertPrintf_globals]

theorem emitArgLog_facts (M : Mod) (p : Operand) (i : Nat) (t : LType) :
    (∀ x ∈ (emitArgLog M p i t).2, x.isCallOrCast = true) ∧
    (emitArgLog M p i t).2.countP isRetLogCall = 0 ∧
    (emitArgLog M p i t).2.countP Instr.isPrintfCall = 1 := by
  cases t <;>
    simp [emitArgLog, emitPrintfArgPtr, emitPrintfArgInt, emitPrintfArgFloat,
      emitPrintfAggregate, createZExtOrBitCast, createFPExtToDouble,
      createPointerCastToI8, LType.isPointerTy, LType.isIntegerTy,
      LType.isFloatingPointTy, List.countP_cons, List.countP_append,
      List.countP_nil] <;>
    first
    | decide
    | (split <;> simp [List.countP_cons, List.countP_append] <;> decide)

theorem emitRetLog_facts (M : Mod) (p : Operand) (rv : Option (LType × Nat)) :
    (∀ x ∈ (emitRetLog M p rv).2, x.isCallOrCast = true) ∧
    (emitRetLog M p rv).2.countP isRetLogCall = 1 ∧
    (emitRetLog M p rv).2.countP Instr.isPrintfCall = 1 ∧
    (emitRetLog M p rv).2.getLast?.bind Instr.fmtStr = some (retFmtFor rv) := by
  match rv with
  | none =>
    simp [emitRetLog, emitPrintfRetVoid, retFmtFor, List.countP_cons]
    try decide
  | some (t, vid) =>
    cases t <;>
      simp [emitRetLog, emitPrintfRetPtr, emitPrintfRetInt, emitPrintfRetFloat,
        retFmtFor, createZExtOrBitCast, createFPExtToDouble,
        createPointerCastToI8, LType.isPointerTy, LType.isIntegerTy,
        LType.isFloatingPointTy, List.countP_cons, List.countP_append,
        List.getLast?_append_of_ne_nil] <;>
      first
      | decide
      | (split <;>
          simp [List.countP_cons, List.countP_append,
            List.getLast?_append_of_ne_nil])

theorem emitPrintfEnter_facts (M : Mod) (p : Operand) :
    (∀ x ∈ (emitPrintfEnter M p).2, x.isCallOrCast = true) ∧
    (emitPrintfEnter M p).2.countP isRetLogCall = 0 := by
  rw [emitPrintfEnter_snd]
  simp [List.countP_cons]
  try decide

/-! ## Structural facts about the instrumentation loops -/

theorem instrumentArgs_cons (M : Mod) (p : Operand) (t : LType)
    (rest : List LType) (i : Nat) (bb : BB) :
    instrumentArgs M p (t :: rest) i bb =
      instrumentArgs (emitArgLog M p i t).1 p rest (i + 1)
        { bb with insts := (emitArgLog M p i t).2 ++ bb.insts } := rfl

/-- The argument loop only prepends call/cast instructions (none of them a
return log) to the block and leaves its terminator alone. -/
theorem instrumentArgs_spec (p : Operand) (params : List LType) :
    ∀ (M : Mod) (i : Nat) (bb : BB),
      ∃ pre, (instrumentArgs M p params i bb).2.insts = pre ++ bb.insts ∧
        (instrumentArgs M p params i bb).2.term = bb.term ∧
        (∀ x ∈ pre, x.isCallOrCast = true) ∧
        pre.countP isRetLogCall = 0 := by
  induction params with
  | nil =>
    intro M i bb
    exact ⟨[], rfl, rfl, by simp, by simp⟩
  | cons t rest ih =>
    intro M i bb
    obtain ⟨pre, h1, h2, h3, h4⟩ :=
      ih (emitArgLog M p i t).1 (i + 1)
        { bb with insts := (emitArgLog M p i t).2 ++ bb.insts }
    refine ⟨pre ++ (emitArgLog M p i t).2, ?_, ?_, ?_, ?_⟩
    · rw [instrumentArgs_cons, h1]
      simp [List.append_assoc]
    · rw [instrumentArgs_cons, h2]
    · intro x hx
      rcases List.mem_append.mp hx with hx' | hx'
      · exact h3 x hx'
      · exact (emitArgLog_facts M p i t).1 x hx'
    · rw [List.countP_append, h4, (emitArgLog_facts M p i t).2.1]

/-- The return loop appends, to each block whose terminator is a return and
only to those, call/cast instructions ending in the return-log call whose
format matches the returned value's classification. -/
theorem instrumentRets_spec (p : Operand) (bbs : List BB) :
    ∀ (M : Mod),
      List.Forall₂ (fun b b' =>
        b'.term = b.term ∧
        ∃ post, b'.insts = b.insts ++ post ∧
          (∀ x ∈ post, x.isCallOrCast = true) ∧
          post.countP isRetLogCall =
            (match b.term with | .ret _ => 1 | .other _ _ => 0) ∧
          (∀ rv, b.term = .ret rv →
            post.getLast?.bind Instr.fmtStr = some (retFmtFor rv)))
        bbs (instrumentRets M p bbs).2 := by
  induction bbs with
  | nil => intro M; simp [instrumentRets]
  | cons bb rest ih =>
    intro M
    rcases hterm : bb.term with rv | ⟨tid, succs⟩
    · have heq : instrumentRets M p (bb :: rest) =
          ((instrumentRets (emitRetLog M p rv).1 p rest).1,
            { bb with insts := bb.insts ++ (emitRetLog M p rv).2 } ::
              (instrumentRets (emitRetLog M p rv).1 p rest).2) := by
        simp only [instrumentRets, hterm]
      rw [heq]
      refine List.Forall₂.cons ?_ (ih _)
      refine ⟨rfl, (emitRetLog M p rv).2, rfl, (emitRetLog_facts M p rv).1, ?_, ?_⟩
      · rw [hterm, (emitRetLog_facts M p rv).2.1]
      · intro rv' hrv'
        rw [hterm] at hrv'
        cases hrv'
        exact (emitRetLog_facts M p rv).2.2.2
    · have heq : instrumentRets M p (bb :: rest) =
          ((instrumentRets M p rest).1, bb :: (instrumentRets M p rest).2) := by
        simp only [instrumentRets, hterm]
      rw [heq]
      refine List.Forall₂.cons ?_ (ih _)
      refine ⟨rfl, [], by simp, by simp, ?_, ?_⟩
      · rw [hterm]; rfl
      · intro rv' hrv'
        rw [hterm] at hrv'
        cases hrv'

/-! ## Facts about `runFunction` -/

theorem skip_of_blocks_nil (F : Func) (h : F.blocks = []) :
    isSkippableFunction F = true := by
  simp [isSkippableFunction, Func.isDeclaration, h]

theorem blocks_cons_of_not_skip (F : Func) (h : isSkippableFunction F = false) :
    ∃ entry rest, F.blocks = entry :: rest := by
  cases hb : F.blocks with
  | nil =>
    rw [skip_of_blocks_nil F hb] at h
    cases h
  | cons e r => exact ⟨e, r, rfl⟩

theorem runFunction_skip (M : Mod) (F : Func)
    (h : isSkippableFunction F = true) :
    runFunction M F = (M, F, .allKept) := by
  unfold runFunction
  rw [if_pos h]

theorem runFunction_not_skip (M : Mod) (F : Func) (entry : BB) (rest : List BB)
    (h : isSkippableFunction F = false) (hb : F.blocks = entry :: rest) :
    runFunction M F =
      ((instrumentBody M F entry rest).1,
        { F with blocks := (instrumentBody M F entry rest).2 }, .noneKept) := by
  unfold runFunction
  rw [if_neg (by simp [h]), hb]

theorem instrumentRets_cons_shape (M : Mod) (p : Operand) (bb : BB)
    (rest : List BB) :
    ∃ b' l', (instrumentRets M p (bb :: rest)).2 = b' :: l' := by
  rcases hterm : bb.term <;> simp only [instrumentRets, hterm] <;>
    exact ⟨_, _, rfl⟩

/-- Master structural lemma: for an instrumented function, input and output
blocks are pointwise related by `blockInstrumented`. -/
theorem runFunction_blocks (M : Mod) (F : Func)
    (h : isSkippableFunction F = false) :
    List.Forall₂ blockInstrumented F.blocks (runFunction M F).2.1.blocks := by
  obtain ⟨entry, rest, hb⟩ := blocks_cons_of_not_skip F h
  rw [runFunction_not_skip M F entry rest h hb, hb]
  show List.Forall₂ blockInstrumented (entry :: rest)
    (instrumentBody M F entry rest).2
  simp only [instrumentBody]
  set g0 := (createGlobalStringPtr M F.name ("__logger.fn." ++ F.name)).2
    with hg0
  set M1 := (createGlobalStringPtr M F.name ("__logger.fn." ++ F.name)).1
    with hM1
  set p := Operand.gstr g0 F.name with hp
  set M2 := (emitPrintfEnter M1 p).1 with hM2
  set eIs := (emitPrintfEnter M1 p).2 with heIs
  set entry1 : BB := { entry with insts := eIs ++ entry.insts } with hentry1
  obtain ⟨b', l', hshape⟩ :=
    instrumentRets_cons_shape (instrumentArgs M2 p F.params 0 entry1).1 p
      (instrumentArgs M2 p F.params 0 entry1).2 rest
  have hR := instrumentRets_spec p
    ((instrumentArgs M2 p F.params 0 entry1).2 :: rest)
    (instrumentArgs M2 p F.params 0 entry1).1
  rw [hshape] at hR ⊢
  rw [List.forall₂_cons] at hR ⊢
  obtain ⟨⟨hterm, post, hpinsts, hpgood, hpcount, hplast⟩, htail⟩ := hR
  obtain ⟨preA, hA1, hA2, hA3, hA4⟩ := instrumentArgs_spec p F.params M2 0 entry1
  constructor
  · refine ⟨?_, preA ++ eIs, post, ?_, ?_, ?_, ?_, ?_, ?_⟩
    · rw [hterm, hA2]
    · rw [hpinsts, hA1]
      simp [hentry1, List.append_assoc]
    · intro x hx
      rcases List.mem_append.mp hx with hx' | hx'
      · exact hA3 x hx'
      · exact (emitPrintfEnter_facts M1 p).1 x (heIs ▸ hx')
    · exact hpgood
    · rw [List.countP_append, hA4, heIs, (emitPrintfEnter_facts M1 p).2]
    · rw [hpcount, hA2]
    · intro rv hrv
      exact hplast rv (by rw [hA2]; exact hrv)
  · refine List.Forall₂.imp ?_ htail
    rintro a b ⟨ht, post, h1, h2, h3, h4⟩
    exact ⟨ht, [], post, by simpa using h1, by simp, h2, by simp, h3, h4⟩

theorem runFunction_sig (M : Mod) (F : Func) :
    (runFunction M F).2.1.name = F.name ∧
    (runFunction M F).2.1.intrinsic = F.intrinsic ∧
    (runFunction M F).2.1.cconv = F.cconv ∧
    (runFunction M F).2.1.retTy = F.retTy ∧
    (runFunction M F).2.1.params = F.params := by
  cases hs : isSkippableFunction F with
  | true =>
    rw [runFunction_skip M F hs]
    exact ⟨rfl, rfl, rfl, rfl, rfl⟩
  | false =>
    obtain ⟨e, r, hb⟩ := blocks_cons_of_not_skip F hs
    rw [runFunction_not_skip M F e r hs hb]
    exact ⟨rfl, rfl, rfl, rfl, rfl⟩

/-- The rewritten entry block is strictly longer than the original: at
least the entry-log call has been added. -/
theorem runFunction_entry_longer (M : Mod) (F : Func)
    (h : isSkippableFunction F = false) :
    ∃ b b', F.blocks.head? = some b ∧
      (runFunction M F).2.1.blocks.head? = some b' ∧
      b.insts.length < b'.insts.length := by
  obtain ⟨entry, rest, hb⟩ := blocks_cons_of_not_skip F h
  rw [runFunction_not_skip M F entry rest h hb, hb]
  simp only [instrumentBody]
  set g0 := (createGlobalStringPtr M F.name ("__logger.fn." ++ F.name)).2
    with hg0
  set M1 := (createGlobalStringPtr M F.name ("__logger.fn." ++ F.name)).1
    with hM1
  set p := Operand.gstr g0 F.name with hp
  set M2 := (emitPrintfEnter M1 p).1 with hM2
  set eIs := (emitPrintfEnter M1 p).2 with heIs
  set entry1 : BB := { entry with insts := eIs ++ entry.insts } with hentry1
  obtain ⟨b', l', hshape⟩ :=
    instrumentRets_cons_shape (instrumentArgs M2 p F.params 0 entry1).1 p
      (instrumentArgs M2 p F.params 0 entry1).2 rest
  have hR := instrumentRets_spec p
    ((instrumentArgs M2 p F.params 0 entry1).2 :: rest)
    (instrumentArgs M2 p F.params 0 entry1).1
  rw [hshape] at hR
  rw [List.forall₂_cons] at hR
  obtain ⟨⟨hterm, post, hpinsts, _, _, _⟩, _⟩ := hR
  obtain ⟨preA, hA1, _, _, _⟩ := instrumentArgs_spec p F.params M2 0 entry1
  refine ⟨entry, b', rfl, ?_, ?_⟩
  · show ((instrumentRets (instrumentArgs M2 p F.params 0 entry1).1 p
      ((instrumentArgs M2 p F.params 0 entry1).2 :: rest)).2).head? = some b'
    rw [hshape]; rfl
  · have heIsLen : eIs.length = 1 := by rw [heIs, emitPrintfEnter_snd]; rfl
    have : b'.insts.length =
        preA.length + (eIs.length + entry.insts.length) + post.length := by
      rw [hpinsts, hA1, hentry1]
      simp [List.length_append]
      omega
    omega

/-! ## Module-effect invariants -/

theorem modExt_refl (M : Mod) : ModExt M M :=
  ⟨rfl, ⟨[], by simp⟩, ⟨[], by simp⟩, fun _ => rfl, Nat.le_max_left _ _⟩

theorem modHasFn_mono_of_funcs_eq {M M' : Mod} (hf : M'.funcs = M.funcs)
    (he : ∃ l, M'.extraFnDecls = M.extraFnDecls ++ l) (n : String)
    (h : modHasFn M n = true) : modHasFn M' n = true := by
  obtain ⟨l, hl⟩ := he
  unfold modHasFn at h ⊢
  rw [hf, hl]
  simp only [List.contains_eq_any_beq, List.any_append, Bool.or_eq_true] at h ⊢
  tauto

theorem ModExt.hasPrintf_mono {M M' : Mod} (h : ModExt M M')
    (hh : modHasFn M "printf" = true) : modHasFn M' "printf" = true :=
  modHasFn_mono_of_funcs_eq h.1 h.2.2.1 _ hh

theorem printfDeclCount_eq_zero {M : Mod}
    (hh : ¬modHasFn M "printf" = true) : printfDeclCount M = 0 := by
  unfold modHasFn at hh
  simp only [Bool.or_eq_true, not_or] at hh
  unfold printfDeclCount
  rw [List.count_eq_zero]
  intro hmem
  exact hh.2 (by simpa using hmem)

theorem modExt_trans {M M' M'' : Mod} (h1 : ModExt M M') (h2 : ModExt M' M'') :
    ModExt M M'' := by
  obtain ⟨hf1, ⟨g1, hg1⟩, ⟨e1, he1⟩, hp1, hc1⟩ := h1
  obtain ⟨hf2, ⟨g2, hg2⟩, ⟨e2, he2⟩, hp2, hc2⟩ := h2
  refine ⟨hf2.trans hf1,
    ⟨g1 ++ g2, by rw [hg2, hg1, List.append_assoc]⟩,
    ⟨e1 ++ e2, by rw [he2, he1, List.append_assoc]⟩, ?_, ?_⟩
  · intro hh
    have hh' : modHasFn M' "printf" = true :=
      modHasFn_mono_of_funcs_eq hf1 ⟨e1, he1⟩ _ hh
    rw [hp2 hh', hp1 hh]
  · by_cases hh : modHasFn M "printf" = true
    · have hh' : modHasFn M' "printf" = true :=
        modHasFn_mono_of_funcs_eq hf1 ⟨e1, he1⟩ _ hh
      have : printfDeclCount M'' = printfDeclCount M := by
        unfold printfDeclCount
        rw [hp2 hh', hp1 hh]
      omega
    · have hM0 : printfDeclCount M = 0 := printfDeclCount_eq_zero hh
      omega

theorem getOrInsertPrintf_modExt (M : Mod) : ModExt M (getOrInsertPrintf M) := by
  by_cases h : modHasFn M "printf" = true
  · rw [getOrInsertPrintf, if_pos h]
    exact modExt_refl M
  · rw [getOrInsertPrintf, if_neg h]
    have hM0 : printfDeclCount M = 0 := printfDeclCount_eq_zero h
    refine ⟨rfl, ⟨[], by simp⟩, ⟨["printf"], rfl⟩, fun hh => absurd hh h, ?_⟩
    unfold printfDeclCount at hM0 ⊢
    simp only [List.count_append]
    rw [hM0]
    simp [List.count_singleton]

theorem createGlobalStringPtr_modExt (M : Mod) (c n : String) :
    ModExt M (createGlobalStringPtr M c n).1 :=
  ⟨rfl, ⟨[⟨n, c⟩], rfl⟩, ⟨[], by simp [createGlobalStringPtr]⟩, fun _ => rfl,
    Nat.le_max_left _ _⟩

theorem modExt_globals_len {M M' : Mod} (h : ModExt M M') :
    M.globals.length ≤ M'.globals.length := by
  obtain ⟨_, ⟨l, hl⟩, _⟩ := h
  rw [hl]
  simp

theorem emitPrintfEnter_modExt (M : Mod) (p : Operand) :
    ModExt M (emitPrintfEnter M p).1 :=
  modExt_trans (getOrInsertPrintf_modExt M) (createGlobalStringPtr_modExt _ _ _)

theorem emitArgLog_modExt (M : Mod) (p : Operand) (i : Nat) (t : LType) :
    ModExt M (emitArgLog M p i t).1 := by
  cases t <;>
    exact modExt_trans (getOrInsertPrintf_modExt M) (createGlobalStringPtr_modExt _ _ _)

theorem emitRetLog_modExt (M : Mod) (p : Operand) (rv : Option (LType × Nat)) :
    ModExt M (emitRetLog M p rv).1 := by
  match rv with
  | none =>
    exact modExt_trans (getOrInsertPrintf_modExt M) (createGlobalStringPtr_modExt _ _ _)
  | some (t, vid) =>
    cases t <;>
      exact modExt_trans (getOrInsertPrintf_modExt M) (createGlobalStringPtr_modExt _ _ _)

theorem instrumentArgs_modExt (p : Operand) (params : List LType) :
    ∀ (M : Mod) (i : Nat) (bb : BB),
      ModExt M (instrumentArgs M p params i bb).1 := by
  induction params with
  | nil => intro M i bb; exact modExt_refl M
  | cons t rest ih =>
    intro M i bb
    rw [instrumentArgs_cons]
    exact modExt_trans (emitArgLog_modExt M p i t) (ih _ _ _)

theorem instrumentRets_modExt (p : Operand) (bbs : List BB) :
    ∀ (M : Mod), ModExt M (instrumentRets M p bbs).1 := by
  induction bbs with
  | nil => intro M; exact modExt_refl M
  | cons bb rest ih =>
    intro M
    rcases hterm : bb.term with rv | ⟨tid, succs⟩
    · have heq : (instrumentRets M p (bb :: rest)).1 =
          (instrumentRets (emitRetLog M p rv).1 p rest).1 := by
        simp only [instrumentRets, hterm]
      rw [heq]
      exact modExt_trans (emitRetLog_modExt M p rv) (ih _)
    · have heq : (instrumentRets M p (bb :: rest)).1 =
          (instrumentRets M p rest).1 := by
        simp only [instrumentRets, hterm]
      rw [heq]
      exact ih M

theorem runFunction_modExt (M : Mod) (F : Func) :
    ModExt M (runFunction M F).1 := by
  cases hs : isSkippableFunction F with
  | true =>
    rw [runFunction_skip M F hs]
    exact modExt_refl M
  | false =>
    obtain ⟨e, r, hb⟩ := blocks_cons_of_not_skip F hs
    rw [runFunction_not_skip M F e r hs hb]
    show ModExt M (instrumentBody M F e r).1
    simp only [instrumentBody]
    exact modExt_trans (createGlobalStringPtr_modExt M _ _)
      (modExt_trans (emitPrintfEnter_modExt _ _)
        (modExt_trans (instrumentArgs_modExt _ _ _ _ _)
          (instrumentRets_modExt _ _ _)))

theorem runFunction_hasPrintf (M : Mod) (F : Func)
    (h : isSkippableFunction F = false) :
    modHasFn (runFunction M F).1 "printf" = true := by
  obtain ⟨e, r, hb⟩ := blocks_cons_of_not_skip F h
  rw [runFunction_not_skip M F e r h hb]
  show modHasFn (instrumentBody M F e r).1 "printf" = true
  simp only [instrumentBody]
  set M1 := (createGlobalStringPtr M F.name ("__logger.fn." ++ F.name)).1
  set p : Operand := .gstr (createGlobalStringPtr M F.name
    ("__logger.fn." ++ F.name)).2 F.name
  have h1 : modHasFn (emitPrintfEnter M1 p).1 "printf" = true :=
    getOrInsertPrintf_hasPrintf M1
  have h2 := (instrumentArgs_modExt p F.params (emitPrintfEnter M1 p).1 0
    { e with insts := (emitPrintfEnter M1 p).2 ++ e.insts }).hasPrintf_mono h1
  exact (instrumentRets_modExt p _ _).hasPrintf_mono h2

theorem runFunction_globals_strict (M : Mod) (F : Func)
    (h : isSkippableFunction F = false) :
    M.globals.length < (runFunction M F).1.globals.length := by
  obtain ⟨e, r, hb⟩ := blocks_cons_of_not_skip F h
  rw [runFunction_not_skip M F e r h hb]
  show M.globals.length < (instrumentBody M F e r).1.globals.length
  simp only [instrumentBody]
  set M1 := (createGlobalStringPtr M F.name ("__logger.fn." ++ F.name)).1
    with hM1
  set p : Operand := .gstr (createGlobalStringPtr M F.name
    ("__logger.fn." ++ F.name)).2 F.name
  have h1 : M1.globals.length = M.globals.length + 1 := by
    rw [hM1]
    simp [createGlobalStringPtr]
  have h2 := modExt_globals_len (emitPrintfEnter_modExt M1 p)
  have h3 := modExt_globals_len (instrumentArgs_modExt p F.params
    (emitPrintfEnter M1 p).1 0
    { e with insts := (emitPrintfEnter M1 p).2 ++ e.insts })
  have h4 := modExt_globals_len (instrumentRets_modExt p
    ((instrumentArgs (emitPrintfEnter M1 p).1 p F.params 0
      { e with insts := (emitPrintfEnter M1 p).2 ++ e.insts }).2 :: r)
    (instrumentArgs (emitPrintfEnter M1 p).1 p F.params 0
      { e with insts := (emitPrintfEnter M1 p).2 ++ e.insts }).1)
  omega

/-! ## Whole-module invariants -/

theorem modExtM_refl (M : Mod) : ModExtM M M :=
  ⟨rfl, ⟨[], by simp⟩, ⟨[], by simp⟩, fun _ => rfl, Nat.le_max_left _ _⟩

theorem anyName_eq_of_key_map_eq :
    ∀ (l l' : List Func), l'.map funcKey = l.map funcKey → ∀ n : String,
      l'.any (fun f => f.name == n) = l.any (fun f => f.name == n)
  | [], [], _, _ => rfl
  | [], _ :: _, h, _ => by simp at h
  | _ :: _, [], h, _ => by simp at h
  | f :: l, f' :: l', h, n => by
    simp only [List.map_cons, List.cons.injEq] at h
    obtain ⟨hk, ht⟩ := h
    have hn : f'.name = f.name := congrArg Prod.fst hk
    simp only [List.any_cons, hn, anyName_eq_of_key_map_eq l l' ht n]

theorem modHasFnM_mono {M M' : Mod}
    (hf : M'.funcs.map funcKey = M.funcs.map funcKey)
    (he : ∃ l, M'.extraFnDecls = M.extraFnDecls ++ l)
    (h : modHasFn M "printf" = true) : modHasFn M' "printf" = true := by
  obtain ⟨l, hl⟩ := he
  unfold modHasFn at h ⊢
  rw [anyName_eq_of_key_map_eq _ _ hf, hl]
  simp only [List.contains_eq_any_beq, List.any_append, Bool.or_eq_true] at h ⊢
  tauto

theorem modExtM_trans {M M' M'' : Mod} (h1 : ModExtM M M')
    (h2 : ModExtM M' M'') : ModExtM M M'' := by
  obtain ⟨hf1, ⟨g1, hg1⟩, ⟨e1, he1⟩, hp1, hc1⟩ := h1
  obtain ⟨hf2, ⟨g2, hg2⟩, ⟨e2, he2⟩, hp2, hc2⟩ := h2
  refine ⟨hf2.trans hf1,
    ⟨g1 ++ g2, by rw [hg2, hg1, List.append_assoc]⟩,
    ⟨e1 ++ e2, by rw [he2, he1, List.append_assoc]⟩, ?_, ?_⟩
  · intro hh
    have hh' : modHasFn M' "printf" = true := modHasFnM_mono hf1 ⟨e1, he1⟩ hh
    rw [hp2 hh', hp1 hh]
  · by_cases hh : modHasFn M "printf" = true
    · have hh' : modHasFn M' "printf" = true := modHasFnM_mono hf1 ⟨e1, he1⟩ hh
      have : printfDeclCount M'' = printfDeclCount M := by
        unfold printfDeclCount
        rw [hp2 hh', hp1 hh]
      omega
    · have hM0 : printfDeclCount M = 0 := printfDeclCount_eq_zero hh
      omega

theorem modExtM_globals_len {M M' : Mod} (h : ModExtM M M') :
    M.globals.length ≤ M'.globals.length := by
  obtain ⟨_, ⟨l, hl⟩, _⟩ := h
  rw [hl]
  simp

theorem set_getElem?_self {α : Type _} :
    ∀ (l : List α) (i : Nat) (a : α), l[i]? = some a → l.set i a = l
  | [], _, _, h => by simp at h
  | x :: xs, 0, a, h => by
    simp only [List.getElem?_cons_zero, Option.some.injEq] at h
    simp [List.set, h]
  | x :: xs, i + 1, a, h => by
    simp only [List.getElem?_cons_succ] at h
    simp only [List.set]
    rw [set_getElem?_self xs i a h]

/-- `funcKey` of the rewritten function equals that of the input. -/
theorem runFunction_key (M : Mod) (F : Func) :
    funcKey (runFunction M F).2.1 = funcKey F := by
  cases hs : isSkippableFunction F with
  | true => rw [runFunction_skip M F hs]
  | false =>
    obtain ⟨e, r, hb⟩ := blocks_cons_of_not_skip F hs
    rw [runFunction_not_skip M F e r hs hb]
    unfold funcKey
    have hname : ({ F with blocks := (instrumentBody M F e r).2 } : Func).name
        = F.name := rfl
    rw [hname]
    have hskip : isSkippableFunction
        { F with blocks := (instrumentBody M F e r).2 } = false := by
      obtain ⟨b', l', hshape⟩ : ∃ b' l',
          (instrumentBody M F e r).2 = b' :: l' := by
        simp only [instrumentBody]
        exact instrumentRets_cons_shape _ _ _ _
      unfold isSkippableFunction Func.isDeclaration at hs ⊢
      rw [hshape]
      rw [hb] at hs
      simpa using hs
    rw [hskip, hs]

theorem runAt_modExtM (M : Mod) (i : Nat) : ModExtM M (runAt M i) := by
  unfold runAt
  cases hFi : M.funcs[i]? with
  | none => exact modExtM_refl M
  | some F =>
    obtain ⟨hf, hg, he, hp, hc⟩ := runFunction_modExt M F
    refine ⟨?_, hg, he, hp, hc⟩
    show ((runFunction M F).1.funcs.set i (runFunction M F).2.1).map funcKey
      = M.funcs.map funcKey
    rw [hf, List.map_set, runFunction_key]
    apply set_getElem?_self
    rw [List.getElem?_map, hFi]
    rfl

theorem runUpTo_modExtM (M : Mod) : ∀ n, ModExtM M (runUpTo M n)
  | 0 => modExtM_refl M
  | n + 1 => modExtM_trans (runUpTo_modExtM M n) (runAt_modExtM (runUpTo M n) n)

theorem runModule_modExtM (M : Mod) : ModExtM M (runModule M) :=
  runUpTo_modExtM M M.funcs.length

theorem runTimes_modExtM (M : Mod) : ∀ n, ModExtM M (runTimes M n)
  | 0 => modExtM_refl M
  | n + 1 => modExtM_trans (runTimes_modExtM M n) (runModule_modExtM (runTimes M n))

/-! ## Growth and stability of the module across whole runs -/

theorem key_at_of_map_eq {l l' : List Func}
    (h : l'.map funcKey = l.map funcKey) (i : Nat) :
    (l'[i]?).map funcKey = (l[i]?).map funcKey := by
  have h1 := congrArg (fun t : List (String × Bool) => t[i]?) h
  simpa using h1

theorem anySkip_eq_of_key_map_eq :
    ∀ (l l' : List Func), l'.map funcKey = l.map funcKey →
      l'.any (fun f => !isSkippableFunction f) =
        l.any (fun f => !isSkippableFunction f)
  | [], [], _ => rfl
  | [], _ :: _, h => by simp at h
  | _ :: _, [], h => by simp at h
  | f :: l, f' :: l', h => by
    simp only [List.map_cons, List.cons.injEq] at h
    obtain ⟨hk, ht⟩ := h
    have hs : isSkippableFunction f' = isSkippableFunction f :=
      congrArg Prod.snd hk
    simp only [List.any_cons, hs, anySkip_eq_of_key_map_eq l l' ht]

theorem runUpTo_index_key (M : Mod) (n i : Nat) (F : Func)
    (hFi : M.funcs[i]? = some F) :
    ∃ G, (runUpTo M n).funcs[i]? = some G ∧ funcKey G = funcKey F := by
  have h := key_at_of_map_eq (runUpTo_modExtM M n).1 i
  rw [hFi] at h
  cases hGi : (runUpTo M n).funcs[i]? with
  | none => rw [hGi] at h; simp at h
  | some G =>
    rw [hGi] at h
    simp only [Option.map_some', Option.some.injEq] at h
    exact ⟨G, rfl, h⟩

theorem runAt_globals_mono (M : Mod) (i : Nat) :
    M.globals.length ≤ (runAt M i).globals.length :=
  modExtM_globals_len (runAt_modExtM M i)

theorem runUpTo_globals_mono (M : Mod) : ∀ {n m : Nat}, n ≤ m →
    (runUpTo M n).globals.length ≤ (runUpTo M m).globals.length := by
  intro n m hnm
  induction m with
  | zero =>
    have h0 : n = 0 := Nat.le_zero.mp hnm
    subst h0
    exact Nat.le_refl _
  | succ m ih =>
    rcases Nat.lt_or_ge n (m + 1) with hlt | hge
    · have h1 := ih (Nat.lt_succ_iff.mp hlt)
      have h2 : (runUpTo M m).globals.length ≤
          (runUpTo M (m + 1)).globals.length := by
        show _ ≤ (runAt (runUpTo M m) m).globals.length
        exact runAt_globals_mono _ _
      omega
    · have h0 : n = m + 1 := Nat.le_antisymm hnm hge
      subst h0
      exact Nat.le_refl _

theorem runAt_globals_strict (M : Mod) (i : Nat) (F : Func)
    (hFi : M.funcs[i]? = some F) (hns : isSkippableFunction F = false) :
    M.globals.length < (runAt M i).globals.length := by
  unfold runAt
  rw [hFi]
  exact runFunction_globals_strict M F hns

theorem runModule_globals_strict (M : Mod)
    (h : M.funcs.any (fun f => !isSkippableFunction f) = true) :
    M.globals.length < (runModule M).globals.length := by
  obtain ⟨F, hmem, hns⟩ := List.any_eq_true.mp h
  have hns' : isSkippableFunction F = false := by simpa using hns
  obtain ⟨i, hFi⟩ := List.mem_iff_getElem?.mp hmem
  have hilen : i < M.funcs.length := (List.getElem?_eq_some_iff.mp hFi).1
  obtain ⟨G, hGi, hGkey⟩ := runUpTo_index_key M i i F hFi
  have hGns : isSkippableFunction G = false := by
    have h2 : isSkippableFunction G = isSkippableFunction F :=
      congrArg Prod.snd hGkey
    rw [h2, hns']
  have hstep : (runUpTo M i).globals.length <
      (runUpTo M (i + 1)).globals.length := by
    show _ < (runAt (runUpTo M i) i).globals.length
    exact runAt_globals_strict _ i G hGi hGns
  have h0 : (runUpTo M 0).globals.length = M.globals.length := rfl
  have h1 := runUpTo_globals_mono M (Nat.zero_le i)
  have h2 := runUpTo_globals_mono M (show i + 1 ≤ M.funcs.length from hilen)
  unfold runModule
  omega

theorem runAt_hasPrintf_of (M : Mod) (i : Nat) (F : Func)
    (hFi : M.funcs[i]? = some F)
    (h : modHasFn (runFunction M F).1 "printf" = true) :
    modHasFn (runAt M i) "printf" = true := by
  unfold runAt
  rw [hFi]
  show (((runFunction M F).1.funcs.set i
      (runFunction M F).2.1).any (fun f => f.name == "printf") ||
    (runFunction M F).1.extraFnDecls.contains "printf") = true
  have hkeymap : ((runFunction M F).1.funcs.set i
      (runFunction M F).2.1).map funcKey
      = (runFunction M F).1.funcs.map funcKey := by
    rw [List.map_set, runFunction_key]
    apply set_getElem?_self
    rw [List.getElem?_map, (runFunction_modExt M F).1, hFi]
    rfl
  rw [anyName_eq_of_key_map_eq _ _ hkeymap]
  exact h

theorem runUpTo_hasPrintf_mono (M : Mod) : ∀ {n m : Nat}, n ≤ m →
    modHasFn (runUpTo M n) "printf" = true →
    modHasFn (runUpTo M m) "printf" = true := by
  intro n m hnm h
  induction m with
  | zero =>
    have h0 : n = 0 := Nat.le_zero.mp hnm
    subst h0
    exact h
  | succ m ih =>
    rcases Nat.lt_or_ge n (m + 1) with hlt | hge
    · have h1 := ih (Nat.lt_succ_iff.mp hlt)
      have hA := runAt_modExtM (runUpTo M m) m
      exact modHasFnM_mono hA.1 hA.2.2.1 h1
    · have h0 : n = m + 1 := Nat.le_antisymm hnm hge
      subst h0
      exact h

theorem runModule_hasPrintf (M : Mod)
    (h : M.funcs.any (fun f => !isSkippableFunction f) = true) :
    modHasFn (runModule M) "printf" = true := by
  obtain ⟨F, hmem, hns⟩ := List.any_eq_true.mp h
  have hns' : isSkippableFunction F = false := by simpa using hns
  obtain ⟨i, hFi⟩ := List.mem_iff_getElem?.mp hmem
  have hilen : i < M.funcs.length := (List.getElem?_eq_some_iff.mp hFi).1
  obtain ⟨G, hGi, hGkey⟩ := runUpTo_index_key M i i F hFi
  have hGns : isSkippableFunction G = false := by
    have h2 : isSkippableFunction G = isSkippableFunction F :=
      congrArg Prod.snd hGkey
    rw [h2, hns']
  have hstep : modHasFn (runUpTo M (i + 1)) "printf" = true := by
    show modHasFn (runAt (runUpTo M i) i) "printf" = true
    exact runAt_hasPrintf_of _ i G hGi (runFunction_hasPrintf _ G hGns)
  exact runUpTo_hasPrintf_mono M
    (show i + 1 ≤ M.funcs.length from hilen) hstep

theorem runUpTo_extra_stable (M : Mod) (h : modHasFn M "printf" = true) :
    ∀ n, (runUpTo M n).extraFnDecls = M.extraFnDecls := by
  intro n
  induction n with
  | zero => rfl
  | succ n ih =>
    show (runAt (runUpTo M n) n).extraFnDecls = M.extraFnDecls
    have hA := runAt_modExtM (runUpTo M n) n
    have hU := runUpTo_modExtM M n
    have hup : modHasFn (runUpTo M n) "printf" = true :=
      modHasFnM_mono hU.1 hU.2.2.1 h
    rw [hA.2.2.2.1 hup, ih]

theorem runUpTo_extra_allSkip (M : Mod)
    (h : M.funcs.any (fun f => !isSkippableFunction f) = false) :
    ∀ n, (runUpTo M n).extraFnDecls = M.extraFnDecls := by
  have hall : ∀ F ∈ M.funcs, isSkippableFunction F = true := by
    intro F hF
    cases hb : isSkippableFunction F with
    | true => rfl
    | false =>
      have hT : M.funcs.any (fun f => !isSkippableFunction f) = true :=
        List.any_eq_true.mpr ⟨F, hF, by rw [hb]; rfl⟩
      rw [h] at hT
      cases hT
  intro n
  induction n with
  | zero => rfl
  | succ n ih =>
    show (runAt (runUpTo M n) n).extraFnDecls = M.extraFnDecls
    unfold runAt
    cases hGi : (runUpTo M n).funcs[n]? with
    | none => exact ih
    | some G =>
      have hkey := key_at_of_map_eq (runUpTo_modExtM M n).1 n
      rw [hGi] at hkey
      cases hFn : M.funcs[n]? with
      | none => rw [hFn] at hkey; simp at hkey
      | some F =>
        rw [hFn] at hkey
        simp only [Option.map_some', Option.some.injEq] at hkey
        have hFskip : isSkippableFunction F = true :=
          hall F (List.getElem?_mem hFn)
        have hGskip : isSkippableFunction G = true := by
          have h2 : isSkippableFunction G = isSkippableFunction F :=
            congrArg Prod.snd hkey
          rw [h2, hFskip]
        show (runFunction (runUpTo M n) G).1.extraFnDecls = M.extraFnDecls
        rw [runFunction_skip _ G hGskip]
        exact ih

theorem runModule_printf_stable (M : Mod) :
    printfDeclCount (runModule (runModule M)) = printfDeclCount (runModule M) := by
  cases h : M.funcs.any (fun f => !isSkippableFunction f) with
  | true =>
    have hHP := runModule_hasPrintf M h
    unfold printfDeclCount
    rw [show (runModule (runModule M)).extraFnDecls
        = (runModule M).extraFnDecls from
      runUpTo_extra_stable (runModule M) hHP (runModule M).funcs.length]
  | false =>
    have hany : (runModule M).funcs.any (fun f => !isSkippableFunction f)
        = M.funcs.any (fun f => !isSkippableFunction f) :=
      anySkip_eq_of_key_map_eq _ _ (runModule_modExtM M).1
    unfold printfDeclCount
    rw [show (runModule (runModule M)).extraFnDecls
        = (runModule M).extraFnDecls from
      runUpTo_extra_allSkip (runModule M) (by rw [hany, h])
        (runModule M).funcs.length]

theorem runTimes_globals_strict (M : Mod)
    (h : M.funcs.any (fun f => !isSkippableFunction f) = true) (n : Nat) :
    (runTimes M n).globals.length < (runTimes M (n + 1)).globals.length := by
  have hany : (runTimes M n).funcs.any (fun f => !isSkippableFunction f)
      = true := by
    rw [anySkip_eq_of_key_map_eq _ _ (runTimes_modExtM M n).1, h]
  show _ < (runModule (runTimes M n)).globals.length
  exact runModule_globals_strict _ hany

/-! ## The PreservedAnalyses result -/

theorem runFunction_pa (M : Mod) (F : Func) :
    (isSkippableFunction F = true → (runFunction M F).2.2 = .allKept) ∧
    (isSkippableFunction F = false → (runFunction M F).2.2 = .noneKept) := by
  constructor
  · intro h
    rw [runFunction_skip M F h]
  · intro h
    obtain ⟨e, r, hb⟩ := blocks_cons_of_not_skip F h
    rw [runFunction_not_skip M F e r h hb]

/-! ## Claim theorems -/

/-- Claim C1 (evidence of the code bug): on the eligible demo function
`add(i32, i32)`, exactly one entry-log call is inserted into the entry
block, but it does not precede every other inserted instruction: an
argument-log call sits at index 1 while the entry-log call sits at index 4,
because the pass re-fetches the entry block's first insertion point for
every argument log and therefore each argument's instructions are inserted
in front of the already-inserted entry log. -/
theorem c1_entry_log_not_first :
    isSkippableFunction demoAdd = false ∧
    demoAddEntry.countP isEnterLogCall = 1 ∧
    demoAddEntry.findIdx isEnterLogCall = 4 ∧
    demoAddEntry.findIdx isArgLogCall = 1 ∧
    demoAddEntry.findIdx isArgLogCall < demoAddEntry.findIdx isEnterLogCall := by
  refine ⟨by decide, by decide, by decide, by decide, by decide⟩

/-- Claim C2 (evidence of the code bug): on `add(i32, i32)` exactly two
argument-log calls are inserted (one per parameter, correctly classified),
but they appear in reverse parameter order (arg1's call before arg0's) and
both precede the entry-log call, contradicting the claimed order
"entry log, then arg0, then arg1". -/
theorem c2_arg_logs_reversed :
    demoAddEntry.countP isArgLogCall = 2 ∧
    (demoAddEntry.filter isArgLogCall).map argLogIdx = [some 1, some 0] ∧
    demoAddEntry.findIdx isArgLogCall < demoAddEntry.findIdx isEnterLogCall := by
  refine ⟨by decide, by decide, by decide⟩

/-- Claim C3: for every instrumented function, block by block: exactly one
return-log call is added when the block's terminator is a return and none
otherwise (so R return sites receive exactly R return-log calls and a
function with no return site receives none); in a return block the added
return-log call is the last instruction before the terminator, and its
format string is the one selected by the void/pointer/integer/float/
aggregate classification of the returned value. -/
theorem c3_return_logs (M : Mod) (F : Func)
    (h : isSkippableFunction F = false) :
    List.Forall₂ (fun b b' =>
      b'.insts.countP isRetLogCall = b.insts.countP isRetLogCall +
        (match b.term with | .ret _ => 1 | .other _ _ => 0) ∧
      (∀ rv, b.term = .ret rv →
        b'.insts.getLast?.bind Instr.fmtStr = some (retFmtFor rv)))
      F.blocks (runFunction M F).2.1.blocks := by
  refine List.Forall₂.imp ?_ (runFunction_blocks M F h)
  rintro b b' ⟨hterm, pre, post, hinsts, hpre, hpost, hprec, hpostc, hlast⟩
  constructor
  · rw [hinsts]
    simp only [List.countP_append, hprec, hpostc]
    omega
  · intro rv hrv
    have hpostne : post ≠ [] := by
      intro hnil
      rw [hnil, hrv] at hpostc
      simp at hpostc
    rw [hinsts, List.getLast?_append_of_ne_nil _ hpostne]
    exact hlast rv hrv

/-- Witness for C3 at the concrete function `add`. -/
theorem c3_witness :
    isSkippableFunction demoAdd = false ∧
    List.Forall₂ (fun b b' =>
      b'.insts.countP isRetLogCall = b.insts.countP isRetLogCall +
        (match b.term with | .ret _ => 1 | .other _ _ => 0) ∧
      (∀ rv, b.term = .ret rv →
        b'.insts.getLast?.bind Instr.fmtStr = some (retFmtFor rv)))
      demoAdd.blocks (runFunction demoMod demoAdd).2.1.blocks :=
  ⟨by decide, c3_return_logs demoMod demoAdd (by decide)⟩

/-- Claim C4: the pass leaves the function and the module byte-identical
exactly when the function is skippable, and the filter matches precisely
"declaration, or intrinsic, or non-empty name equal to `printf` or starting
with `__logger`"; in particular a defined, non-intrinsic function with an
empty name is not skipped. -/
theorem c4_skip_iff_noop (M : Mod) (F : Func) :
    ((runFunction M F).2.1 = F ↔ isSkippableFunction F = true) ∧
    ((runFunction M F).1 = M ↔ isSkippableFunction F = true) ∧
    isSkippableFunction F =
      (F.isDeclaration || F.intrinsic ||
        (!F.name.isEmpty &&
          (F.name == "printf" || F.name.startsWith "__logger"))) ∧
    (F.isDeclaration = false → F.intrinsic = false → F.name = "" →
      isSkippableFunction F = false) := by
  refine ⟨⟨?_, ?_⟩, ⟨?_, ?_⟩, ?_, ?_⟩
  · intro hF
    cases hs : isSkippableFunction F with
    | true => rfl
    | false =>
      obtain ⟨b, b', hhead, hhead', hlen⟩ := runFunction_entry_longer M F hs
      rw [hF, hhead] at hhead'
      injection hhead' with hbb
      rw [hbb] at hlen
      exact absurd hlen (lt_irrefl _)
  · intro hs
    rw [runFunction_skip M F hs]
  · intro hM
    cases hs : isSkippableFunction F with
    | true => rfl
    | false =>
      have hlt := runFunction_globals_strict M F hs
      rw [hM] at hlt
      exact absurd hlt (lt_irrefl _)
  · intro hs
    rw [runFunction_skip M F hs]
  · cases hd : F.isDeclaration <;> cases hi : F.intrinsic <;>
      cases he : F.name.isEmpty <;> cases hp : F.name == "printf" <;>
      cases hs : F.name.startsWith "__logger" <;>
      simp [isSkippableFunction, hd, hi, he, hp, hs]
  · intro h1 h2 h3
    unfold isSkippableFunction
    rw [h1, h2, h3]
    decide

/-- Witness for C4: the declaration `ext` is a no-op, and the defined
function with an empty name is not skipped. -/
theorem c4_witness :
    ((runFunction demoMod2 demoDecl).2.1 = demoDecl ∧
      isSkippableFunction demoDecl = true) ∧
    isSkippableFunction demoAnon = false :=
  ⟨⟨((c4_skip_iff_noop demoMod2 demoDecl).1).mpr (by decide), by decide⟩,
    (c4_skip_iff_noop demoMod2 demoAnon).2.2.2 (by decide) (by decide) rfl⟩

/-- Claim C5: instrumentation preserves the control-flow graph: the block
count is unchanged, every block keeps its terminator (hence all edges and
terminator kinds), the original instructions stay contiguous in their
original order with only call/cast (non-branching) instructions inserted
around them, and the function's name, parameters, return type and calling
convention are untouched. -/
theorem c5_cfg_preserved (M : Mod) (F : Func)
    (h : isSkippableFunction F = false) :
    (runFunction M F).2.1.blocks.length = F.blocks.length ∧
    (runFunction M F).2.1.name = F.name ∧
    (runFunction M F).2.1.params = F.params ∧
    (runFunction M F).2.1.retTy = F.retTy ∧
    (runFunction M F).2.1.cconv = F.cconv ∧
    List.Forall₂ (fun b b' =>
      b'.term = b.term ∧
      ∃ pre post, b'.insts = pre ++ b.insts ++ post ∧
        (∀ x ∈ pre, x.isCallOrCast = true) ∧
        (∀ x ∈ post, x.isCallOrCast = true))
      F.blocks (runFunction M F).2.1.blocks := by
  have hB := runFunction_blocks M F h
  have hS := runFunction_sig M F
  refine ⟨(hB.length_eq).symm, hS.1, hS.2.2.2.2, hS.2.2.2.1, hS.2.2.1, ?_⟩
  refine List.Forall₂.imp ?_ hB
  rintro b b' ⟨hterm, pre, post, hinsts, hpre, hpost, -, -, -⟩
  exact ⟨hterm, pre, post, hinsts, hpre, hpost⟩

/-- Witness for C5 at the concrete function `add`. -/
theorem c5_witness :
    isSkippableFunction demoAdd = false ∧
    (runFunction demoMod demoAdd).2.1.blocks.length = demoAdd.blocks.length ∧
    (runFunction demoMod demoAdd).2.1.name = demoAdd.name :=
  ⟨by decide, (c5_cfg_preserved demoMod demoAdd (by decide)).1,
    (c5_cfg_preserved demoMod demoAdd (by decide)).2.1⟩

/-- Claim C6: an integer argument or return value of width `w < 64` is
widened with `zext` (never `sext`): the emitted instruction list contains
exactly the zero-extending cast and the log call, the 64-bit pattern handed
to printf equals the argument's bit pattern unchanged, and for a pattern
with the top bit set (e.g. 8-bit 200) sign-extension would have produced a
different 64-bit value. -/
theorem c6_zero_extension (M : Mod) (p : Operand) (i ai vid w v : Nat)
    (aenv venv : Nat → Nat) (hw : w < 64) (hv : v < 2 ^ w)
    (ha : aenv ai = v) (hb : venv vid = v) :
    ((emitPrintfArgInt M p i (.arg ai) (.int w)).2 =
      [.cast .zext (.arg ai) (.int 64),
       .callPrintf [.gstr M.globals.length argFmtInt, p, .constI32 i,
         .castV .zext w (.arg ai)]] ∧
     evalOperand aenv venv (.castV .zext w (.arg ai)) = v) ∧
    ((emitPrintfRetInt M p (.origVal vid) (.int w)).2 =
      [.cast .zext (.origVal vid) (.int 64),
       .callPrintf [.gstr M.globals.length retFmtInt, p,
         .castV .zext w (.origVal vid)]] ∧
     evalOperand aenv venv (.castV .zext w (.origVal vid)) = v) ∧
    (2 ^ (w - 1) ≤ v →
      evalOperand aenv venv (.castV .sext w (.arg ai)) ≠ v) := by
  have hw64 : w ≠ 64 := Nat.ne_of_lt hw
  have hvlt : v < 2 ^ 64 :=
    lt_of_lt_of_le hv (Nat.pow_le_pow_right (by omega) (le_of_lt hw))
  refine ⟨⟨?_, ?_⟩, ⟨?_, ?_⟩, ?_⟩
  · simp [emitPrintfArgInt, createGlobalStringPtr, createZExtOrBitCast,
      getOrInsertPrintf_globals, LType.scalarSizeInBits, hw64]
  · show aenv ai % 2 ^ 64 = v
    rw [ha]
    exact Nat.mod_eq_of_lt hvlt
  · simp [emitPrintfRetInt, createGlobalStringPtr, createZExtOrBitCast,
      getOrInsertPrintf_globals, LType.scalarSizeInBits, hw64]
  · show venv vid % 2 ^ 64 = v
    rw [hb]
    exact Nat.mod_eq_of_lt hvlt
  · intro hge
    simp only [evalOperand, ha]
    rw [Nat.mod_eq_of_lt hv, if_neg (by omega)]
    have h2w : 2 ^ w < 2 ^ 64 := Nat.pow_lt_pow_right (by omega) hw
    have hlt2 : v + (2 ^ 64 - 2 ^ w) < 2 ^ 64 := by omega
    rw [Nat.mod_eq_of_lt hlt2]
    omega

/-- Witness for C6: the 8-bit pattern 200 is logged as 200; sign-extension
would have logged a different value. -/
theorem c6_witness :
    (8 < 64 ∧ 200 < 2 ^ 8 ∧ 2 ^ (8 - 1) ≤ 200) ∧
    evalOperand (fun _ => 200) (fun _ => 200) (.castV .zext 8 (.arg 0)) = 200 ∧
    evalOperand (fun _ => 200) (fun _ => 200) (.castV .sext 8 (.arg 0)) ≠ 200 :=
  ⟨⟨by decide, by decide, by decide⟩,
    ((c6_zero_extension demoMod (.gstr 0 "add") 0 0 0 8 200 (fun _ => 200)
      (fun _ => 200) (by decide) (by decide) rfl rfl).1).2,
    (c6_zero_extension demoMod (.gstr 0 "add") 0 0 0 8 200 (fun _ => 200)
      (fun _ => 200) (by decide) (by decide) rfl rfl).2.2 (by decide)⟩

/-- Claim C7: the four-way classification is total — every possible
argument type and every possible return site is assigned a defined emission
action (the trailing `else` arms are catch-alls), and the corresponding
emission always produces exactly one log call, so instrumentation cannot
reach an undefined or failing branch once the filter has passed. -/
theorem c7_classification_total (t : LType) (rv : Option (LType × Nat))
    (M M2 : Mod) (p : Operand) (i : Nat) :
    (argEmitKind t).isSome = true ∧
    (retEmitKind rv).isSome = true ∧
    (emitArgLog M p i t).2.countP Instr.isPrintfCall = 1 ∧
    (emitRetLog M2 p rv).2.countP Instr.isPrintfCall = 1 := by
  refine ⟨?_, ?_, (emitArgLog_facts M p i t).2.2, (emitRetLog_facts M2 p rv).2.2.1⟩
  · cases t <;> rfl
  · rcases rv with _ | ⟨t', vid⟩
    · rfl
    · cases t' <;> rfl

/-- Claim C8: the `printf` declaration is inserted at most once no matter
how many times the pass runs (the lookup-or-insert is idempotent and a
second whole-module run inserts nothing new), while the global string
constants only ever grow and every run over a module with at least one
eligible function creates fresh constants instead of reusing the previous
run's. -/
theorem c8_printf_decl_once (M : Mod) (n : Nat) :
    getOrInsertPrintf (getOrInsertPrintf M) = getOrInsertPrintf M ∧
    printfDeclCount (runTimes M n) ≤ max (printfDeclCount M) 1 ∧
    printfDeclCount (runModule (runModule M)) = printfDeclCount (runModule M) ∧
    (∃ l, (runModule M).globals = M.globals ++ l) ∧
    (M.funcs.any (fun f => !isSkippableFunction f) = true →
      (runTimes M n).globals.length < (runTimes M (n + 1)).globals.length) :=
  ⟨getOrInsertPrintf_idem M, (runTimes_modExtM M n).2.2.2.2,
    runModule_printf_stable M, (runModule_modExtM M).2.1,
    fun h => runTimes_globals_strict M h n⟩

/-- Witness for C8: the demo module holds an eligible function, and the
second whole-module run still adds fresh global constants. -/
theorem c8_witness :
    demoMod.funcs.any (fun f => !isSkippableFunction f) = true ∧
    (runTimes demoMod 1).globals.length < (runTimes demoMod 2).globals.length :=
  ⟨by decide, (c8_printf_decl_once demoMod 1).2.2.2.2 (by decide)⟩

/-- Claim C9 (counterexample): instrumenting the eligible demo function
returns `PreservedAnalyses::none()`, which does NOT mark the CFG-analyses
set as preserved — refuting the claim that the result also signals that the
control-flow-graph shape is preserved. -/
theorem c9_counterexample :
    isSkippableFunction demoAdd = false ∧
    (runFunction demoMod demoAdd).2.2 = PreservedAnalyses.noneKept ∧
    (runFunction demoMod demoAdd).2.2.preservesCFG = false := by
  refine ⟨by decide, by decide, by decide⟩

/-- Claim C9 (amended): when a function is instrumented the pass returns
the none-preserved result — all analyses, including CFG-only ones, are
signalled invalidated; no CFG-preservation marker is set. -/
theorem c9_pa_none (M : Mod) (F : Func)
    (h : isSkippableFunction F = false) :
    (runFunction M F).2.2 = .noneKept ∧
    (runFunction M F).2.2.preservesCFG = false := by
  have h2 := (runFunction_pa M F).2 h
  exact ⟨h2, by rw [h2]; rfl⟩

/-- Witness for the amended C9 at the concrete function `add`. -/
theorem c9_witness :
    isSkippableFunction demoAdd = false ∧
    ((runFunction demoMod demoAdd).2.2 = .noneKept ∧
      (runFunction demoMod demoAdd).2.2.preservesCFG = false) :=
  ⟨by decide, c9_pa_none demoMod demoAdd (by decide)⟩

/-- Claim C10: a skipped function yields the all-preserved result — the
whole invocation is the identity on module and function and returns
`PreservedAnalyses::all()` — in contrast to the none-preserved result
returned after instrumenting; the two results are distinct. -/
theorem c10_skip_preserves_all (M : Mod) (F : Func) :
    (isSkippableFunction F = true → runFunction M F = (M, F, .allKept)) ∧
    (isSkippableFunction F = false → (runFunction M F).2.2 = .noneKept) ∧
    PreservedAnalyses.allKept ≠ PreservedAnalyses.noneKept :=
  ⟨runFunction_skip M F, (runFunction_pa M F).2, by decide⟩

/-- Witness for C10: the declaration is skipped with the all-preserved
result; the defined void function is instrumented with the none-preserved
result. -/
theorem c10_witness :
    (isSkippableFunction demoDecl = true ∧
      runFunction demoMod2 demoDecl = (demoMod2, demoDecl, .allKept)) ∧
    (isSkippableFunction demoVoidFn = false ∧
      (runFunction demoMod2 demoVoidFn).2.2 = .noneKept) :=
  ⟨⟨by decide, (c10_skip_preserves_all demoMod2 demoDecl).1 (by decide)⟩,
    ⟨by decide, (c10_skip_preserves_all demoMod2 demoVoidFn).2.1 (by decide)⟩⟩

end LoggerPass
